import Mathlib

/-!
Verification of `xblock/core.py` (the XBlock core module): local-resource
access control, class-tag combination via the metaclass, the tag decorator,
tagged-class loading, constructor argument handling, deprecated exception
aliases, and the spec-level contracts for batched field saving and XML
round-tripping.

Python strings are embedded as `List Char` where character-level structure
matters and as `String` otherwise; Python `set` objects are embedded as
references (`Nat` indices) into an explicit heap of `Finset String`, so that
aliasing and in-place mutation are observable.
-/

namespace XBlockCore

instance exceptDecEq {ε α : Type} [DecidableEq ε] [DecidableEq α] :
    DecidableEq (Except ε α) := fun
  | Except.ok a, Except.ok b =>
    if h : a = b then isTrue (by rw [h])
    else isFalse (fun hc => h (Except.ok.inj hc))
  | Except.ok _, Except.error _ => isFalse (fun hc => Except.noConfusion hc)
  | Except.error _, Except.ok _ => isFalse (fun hc => Except.noConfusion hc)
  | Except.error e, Except.error f =>
    if h : e = f then isTrue (by rw [h])
    else isFalse (fun hc => h (Except.error.inj hc))

/-! Model of `XBlock.open_local_resource` (core.py lines 123-149) -/

/-- The check `"/." in uri` of `open_local_resource`: scan for the
two-character substring slash-dot. -/
def hasSlashDot : List Char → Bool
  | [] => false
  | c :: rest => (c == '/' && rest.head? == some '.') || hasSlashDot rest

/-- The uri whitelist check and resource open of `XBlock.open_local_resource`:
first the `uri.startswith("public/")` test (raising `DisallowedFileError`
otherwise), then the `"/." in uri` test (again raising `DisallowedFileError`),
then the call to `pkg_resources.resource_stream` (an external effect, modelled
as returning the uri it was asked to open). -/
def open_local_resource (uri : List Char) : Except String (List Char) :=
  if ¬ ("public/".toList.isPrefixOf uri = true) then
    Except.error "Only files from public/ are allowed"
  else if hasSlashDot uri then
    Except.error "Only safe file names are allowed"
  else
    Except.ok uri

/-- Split a uri into (first path segment, later path segments), cutting at
every slash.  This realises the spec's notion of "path segment". -/
def splitSlashAux : List Char → List Char × List (List Char)
  | [] => ([], [])
  | c :: rest =>
    let p := splitSlashAux rest
    if c = '/' then ([], p.1 :: p.2) else (c :: p.1, p.2)

/-- All path segments of a uri. -/
def segs (uri : List Char) : List (List Char) :=
  (splitSlashAux uri).1 :: (splitSlashAux uri).2

/-- The path segments that are preceded by a slash. -/
def tailSegs (uri : List Char) : List (List Char) :=
  (splitSlashAux uri).2

/-- A path segment is dot-prefixed when its first character is a dot. -/
def dotSeg (s : List Char) : Bool := s.head? == some '.'

/-- The specification's whitelist predicate: the uri begins with "public/"
and contains no dot-prefixed path segment. -/
def specAllowedUri (uri : List Char) : Prop :=
  "public/".toList.isPrefixOf uri = true ∧ ∀ s ∈ segs uri, dotSeg s = false

/-! Class tags (core.py lines 44-61, 102-121).

A Python class, as far as tagging is concerned, owns at most one reference to
a mutable `set` object; the heap of those set objects is explicit so that
sharing between classes and in-place mutation are faithfully represented. -/

/-- A Python class: either it has a `_class_tags` attribute referring to a
set object on the heap, or it has no such attribute. -/
structure PyClass where
  tagsRef : Option Nat
deriving DecidableEq

/-- The heap of Python `set` objects holding class tags. -/
abbrev TagHeap := List (Finset String)

/-- Read `cls._class_tags`; a class without the attribute reads as the empty
set (its `AttributeError` is only ever raised where noted below). -/
def getTags (heap : TagHeap) (cls : PyClass) : Finset String :=
  match cls.tagsRef with
  | some r => heap.getD r ∅
  | none => ∅

/-- A class's tag reference, if any, points into the heap. -/
def validRef (heap : TagHeap) (cls : PyClass) : Bool :=
  match cls.tagsRef with
  | some r => decide (r < heap.length)
  | none => true

/-- Python `TagCombiningMetaclass.__new__`: allocate a fresh `set([])`, update it
with `base._class_tags` for every base class that has the attribute (the
`AttributeError` of a base without it is caught and ignored), store the fresh
set as the new class's `_class_tags`, and build the class. -/
def TagCombiningMetaclass_new (heap : TagHeap) (bases : List PyClass) :
    TagHeap × PyClass :=
  let class_tags : Finset String :=
    bases.foldl
      (fun acc base =>
        match base.tagsRef with
        | some r => acc ∪ heap.getD r ∅
        | none => acc)
      ∅
  (heap ++ [class_tags], { tagsRef := some heap.length })

/-- The call `tags.replace(",", " ")`: the pattern is the single comma character, so
the replacement maps each comma to a space. -/
def commaToSpace (l : List Char) : List Char :=
  l.map (fun c => if c = ',' then ' ' else c)

/-- Split at whitespace characters, keeping empty pieces (they are discarded
by `pywords`, matching Python's no-argument `split()`). -/
def pysplitWsAux : List Char → List Char × List (List Char)
  | [] => ([], [])
  | c :: rest =>
    let q := pysplitWsAux rest
    if c.isWhitespace then ([], q.1 :: q.2) else (c :: q.1, q.2)

/-- The word computation of `XBlock.tag`:
`tags.replace(",", " ").split()` — replace commas with spaces, then split on
whitespace runs, discarding empty pieces. -/
def pywords (tags : String) : List String :=
  (((pysplitWsAux (commaToSpace tags.toList)).1 ::
      (pysplitWsAux (commaToSpace tags.toList)).2).filter
    (fun w => !w.isEmpty)).map List.asString

/-- The decorator returned by `XBlock.tag(tags)`: it updates the class's
`_class_tags` set in place with the words of `tags` and returns the very
class it was given; a class without the attribute raises `AttributeError`. -/
def XBlock_tag (tags : String) (heap : TagHeap) (cls : PyClass) :
    Except String (TagHeap × PyClass) :=
  match cls.tagsRef with
  | some r =>
    Except.ok (heap.set r (heap.getD r ∅ ∪ (pywords tags).toFinset), cls)
  | none => Except.error "AttributeError"

/-- Generator `XBlock.load_tagged_classes(tag)`: iterate over the (name, class) pairs
produced by the plugin-discovery collaborator `load_classes` (an input here)
and yield exactly those whose class's `_class_tags` contains `tag`. -/
def load_tagged_classes (heap : TagHeap) (tag : String)
    (loaded : List (String × PyClass)) : List (String × PyClass) :=
  loaded.filter (fun p => decide (tag ∈ getTags heap p.2))

/-! Model of `XBlock.__init__` (core.py lines 151-174) -/

/-- A Python exception value. -/
inductive PyErr where
  | typeError (msg : String)
deriving DecidableEq

/-- An argument that is either explicitly passed or left at the module-level
`UNSET` sentinel default. -/
inductive PyArg (α : Type) where
  | unset
  | given (v : α)

/-- The keyword arguments `XBlock.__init__` passes on to the mixin chain
(`super(XBlock, self).__init__(runtime=..., scope_ids=..., field_data=...)`). -/
structure SuperInitCall (R F S : Type) where
  runtime : R
  scope_ids : S
  field_data : F

/-- Constructor `XBlock.__init__`: raise `TypeError('scope_ids are required')` when
`scope_ids` was left at the `UNSET` sentinel, otherwise delegate `runtime`,
`scope_ids` and `field_data` unchanged to the mixin chain. -/
def XBlock_init {R F S : Type} (runtime : R) (field_data : F)
    (scope_ids : PyArg S) : Except PyErr (SuperInitCall R F S) :=
  match scope_ids with
  | PyArg.unset => Except.error (PyErr.typeError "scope_ids are required")
  | PyArg.given s =>
    Except.ok { runtime := runtime, scope_ids := s, field_data := field_data }

/-- Constructor `XBlock.__init__` threaded through the class-attribute heap: the
constructor assigns only instance state (through the mixin chain), never any
class attribute, so the heap of class tag sets passes through unchanged. -/
def XBlock_init_heap {R F S : Type} (heap : TagHeap) (runtime : R)
    (field_data : F) (scope_ids : PyArg S) :
    TagHeap × Except PyErr (SuperInitCall R F S) :=
  (heap, XBlock_init runtime field_data scope_ids)

/-! Deprecated exception aliases (core.py lines 187-206) -/

/-- The exception classes involved: the current kinds from
`xblock.exceptions` and the two backwards-compatibility subclasses that
`core.py` layers on top of them. -/
inductive ExcClass where
  | kvMultiSave
  | kvMultiSaveCompat
  | xbSave
  | xbSaveCompat
deriving DecidableEq

/-- The declared base class of each exception class, if it is one of the
classes modelled here. -/
def pyBase : ExcClass → Option ExcClass
  | ExcClass.kvMultiSaveCompat => some ExcClass.kvMultiSave
  | ExcClass.xbSaveCompat => some ExcClass.xbSave
  | _ => none

/-- Python `isinstance` at the class level: a class is a subclass of itself
and of its declared base. -/
def isSubclassOf (c d : ExcClass) : Bool :=
  c = d ||
    (match pyBase c with
     | some b => b = d
     | none => false)

/-- A constructed exception object: its class plus the positional and keyword
arguments its constructor received. -/
structure ExcInstance where
  cls : ExcClass
  args : List String
  kwargs : List (String × String)
deriving DecidableEq

/-- Modelled from the spec: `xblock.exceptions.KeyValueMultiSaveError` lives
in `xblock/exceptions.py`, which is not under `src/`; per the spec's error
taxonomy it simply carries the structured failure information it is
constructed with, so its constructor stores the received arguments and emits
no warning. -/
def exceptions_KeyValueMultiSaveError_init (args : List String)
    (kwargs : List (String × String)) : ExcInstance × List String :=
  ({ cls := ExcClass.kvMultiSave, args := args, kwargs := kwargs }, [])

/-- Modelled from the spec: `xblock.exceptions.XBlockSaveError`, as above. -/
def exceptions_XBlockSaveError_init (args : List String)
    (kwargs : List (String × String)) : ExcInstance × List String :=
  ({ cls := ExcClass.xbSave, args := args, kwargs := kwargs }, [])

/-- Alias constructor `core.KeyValueMultiSaveError.__init__` (lines 191-197): emit the
deprecation warning, then delegate `*args, **kwargs` unchanged to the parent
class constructor; the constructed object's class is the alias subclass. -/
def core_KeyValueMultiSaveError_init (args : List String)
    (kwargs : List (String × String)) : ExcInstance × List String :=
  let parent := exceptions_KeyValueMultiSaveError_init args kwargs
  ({ parent.1 with cls := ExcClass.kvMultiSaveCompat },
   "DeprecationWarning: Please use xblock.exceptions.KeyValueMultiSaveError" ::
     parent.2)

/-- Alias constructor `core.XBlockSaveError.__init__` (lines 200-206), as above. -/
def core_XBlockSaveError_init (args : List String)
    (kwargs : List (String × String)) : ExcInstance × List String :=
  let parent := exceptions_XBlockSaveError_init args kwargs
  ({ parent.1 with cls := ExcClass.xbSaveCompat },
   "DeprecationWarning: Please use xblock.exceptions.XBlockSaveError" ::
     parent.2)

/-! Batched save (spec §4.1, §6, §7; `xblock/mixins.py` is not under
`src/`, so the save path is modelled from the spec) -/

/-- Modelled from the spec: the key-value store's batch write
`set_many(mapping) -> mapping of key to failure, for keys that failed` (§6).
Which writes fail is the backend's choice, supplied as the predicate
`fails`. -/
def kvs_set_many (fields : List String) (fails : String → Bool) :
    List String :=
  fields.filter fails

/-- What a batched save leaves behind: the reported per-field failure map,
the fields still marked dirty, and the partial-save error raised, if any. -/
structure SaveOutcome where
  failed : List String
  dirty : List String
  err : Option (List String)
deriving DecidableEq

/-- Modelled from the spec: the scoped-storage `save()`
(`xblock/mixins.py`, not under `src/`): submit all dirty fields as a single
batch write, clear dirtiness only for fields confirmed written, and raise the
partial-save error naming the failed fields when any write failed
(§4.1, §7). -/
def save_block (dirtyFields : List String) (fails : String → Bool) :
    SaveOutcome :=
  { failed := kvs_set_many dirtyFields fails
  , dirty :=
      dirtyFields.filter (fun f => (kvs_set_many dirtyFields fails).contains f)
  , err :=
      if (kvs_set_many dirtyFields fails).isEmpty then none
      else some (kvs_set_many dirtyFields fails) }

/-! XML serialization (spec §4.3; `xblock/mixins.py` is not under
`src/`, so serialization is modelled from the spec) -/

/-- A markup tree node: a tag name, an ordered attribute list, and ordered
children. -/
inductive XmlNode where
  | node (tag : String) (attrs : List (String × String)) (children : List XmlNode)

/-- Split at commas, keeping empty pieces. -/
def splitCommaAux : List Char → List Char × List (List Char)
  | [] => ([], [])
  | c :: rest =>
    let q := splitCommaAux rest
    if c = ',' then ([], q.1 :: q.2) else (c :: q.1, q.2)

/-- Modelled from the spec: the deserializer of the `tags` field (a `List`
field; the field classes live in `xblock/fields.py`, not under `src/`):
an empty attribute denotes the empty list, otherwise the comma-separated
items. -/
def decodeTags (v : String) : List String :=
  if v = "" then []
  else ((splitCommaAux v.toList).1 :: (splitCommaAux v.toList).2).map
    List.asString

/-- Interleave commas between the pieces. -/
def joinComma : List (List Char) → List Char
  | [] => []
  | [x] => x
  | x :: xs => x ++ ',' :: joinComma xs

/-- Modelled from the spec: the serializer of the `tags` field, inverse to
`decodeTags` on its range. -/
def encodeTags (xs : List String) : String :=
  List.asString (joinComma (xs.map String.toList))

/-- A block as reconstructed from markup: its block type (the node's tag
name), the two declared fields of `XBlock` (`name`, default empty, and
`tags`, default the empty list), the unknown attributes preserved verbatim,
and the parsed children in order. -/
structure ParsedBlock where
  blockType : String
  name : String
  tags : List String
  unknowns : List (String × String)
  children : List ParsedBlock

/-- First value bound to the attribute name, if any. -/
def lookupAttr (attrs : List (String × String)) (k : String) :
    Option String :=
  match attrs with
  | [] => none
  | (k', v) :: rest => if k' = k then some v else lookupAttr rest k

mutual

/-- Modelled from the spec: deserialization (§4.3) — populate the declared
fields from attributes (absent attributes fall back to the field default),
preserve unknown attributes verbatim, and recursively parse children,
preserving order. -/
def parse_xml : XmlNode → ParsedBlock
  | XmlNode.node t attrs children =>
    { blockType := t
    , name := (lookupAttr attrs "name").getD ""
    , tags := ((lookupAttr attrs "tags").map decodeTags).getD []
    , unknowns := attrs.filter (fun p => !(p.1 == "name") && !(p.1 == "tags"))
    , children := parseChildren children }

/-- Children of `parse_xml`, in order. -/
def parseChildren : List XmlNode → List ParsedBlock
  | [] => []
  | x :: xs => parse_xml x :: parseChildren xs

end

mutual

/-- Modelled from the spec: serialization (§4.3) — emit each declared field
whose current value differs from its default as an attribute, re-emit the
preserved unknown attributes, and serialize children in order. -/
def add_xml_to_node : ParsedBlock → XmlNode
  | ParsedBlock.mk t n tg u c =>
    XmlNode.node t
      ((if n = "" then [] else [("name", n)]) ++
       (if tg = [] then [] else [("tags", encodeTags tg)]) ++
       u)
      (serializeChildren c)

/-- Children of `add_xml_to_node`, in order. -/
def serializeChildren : List ParsedBlock → List XmlNode
  | [] => []
  | b :: bs => add_xml_to_node b :: serializeChildren bs

end

mutual

/-- A well-formed markup tree (§4.3): attribute names are distinct, a `name`
attribute is non-empty, a `tags` attribute is in the serializer's range and
denotes a non-default value, and all children are well formed.  Serializer
output satisfies all of this. -/
def wellFormedXml : XmlNode → Bool
  | XmlNode.node _ attrs children =>
    decide ((attrs.map Prod.fst).Nodup) &&
    attrs.all (fun p =>
      if p.1 = "name" then !(p.2 == "")
      else if p.1 = "tags" then
        !(decodeTags p.2 == []) && (encodeTags (decodeTags p.2) == p.2)
      else true) &&
    wellFormedForest children

/-- All nodes of the forest are well formed. -/
def wellFormedForest : List XmlNode → Bool
  | [] => true
  | x :: xs => wellFormedXml x && wellFormedForest xs

end

/-- Semantic equivalence of markup trees (§4.3): same tag name, same
attribute bindings up to order, and pairwise equivalent children in the same
order. -/
inductive semEquiv : XmlNode → XmlNode → Prop where
  | mk (t : String) (attrs attrs' : List (String × String))
      (children children' : List XmlNode) :
      List.Perm attrs attrs' →
      List.Forall₂ semEquiv children children' →
      semEquiv (XmlNode.node t attrs children) (XmlNode.node t attrs' children')

/-! Theorems about the definitions above. -/

/-! C1: open_local_resource -/

theorem dotSeg_fst_splitSlashAux (l : List Char) :
    dotSeg (splitSlashAux l).1 = (l.head? == some '.') := by
  match l with
  | [] => simp [splitSlashAux, dotSeg]
  | c :: rest =>
    by_cases hc : c = '/'
    · subst hc
      simp [splitSlashAux, dotSeg]
    · simp [splitSlashAux, hc, dotSeg]

theorem hasSlashDot_eq_any_tailSegs (l : List Char) :
    hasSlashDot l = (tailSegs l).any dotSeg := by
  induction l with
  | nil => simp [hasSlashDot, tailSegs, splitSlashAux]
  | cons c rest ih =>
    by_cases hc : c = '/'
    · subst hc
      have hfst := dotSeg_fst_splitSlashAux rest
      simp only [hasSlashDot, tailSegs, splitSlashAux, List.any_cons]
      simp only [tailSegs] at ih
      rw [hfst.symm, ih]
      simp
    · have hc' : (c == '/') = false := by simp [hc]
      simp only [hasSlashDot, tailSegs, splitSlashAux, hc', Bool.false_and,
        Bool.false_or, if_neg hc]
      exact ih

theorem segs_public_append (rest : List Char) :
    segs ("public/".toList ++ rest) = "public".toList :: segs rest := by
  simp [segs, splitSlashAux, String.toList]

theorem tailSegs_public_append (rest : List Char) :
    tailSegs ("public/".toList ++ rest) = segs rest := by
  simp [tailSegs, segs, splitSlashAux, String.toList]

/-- C1. For every uri, `open_local_resource` succeeds exactly when the
uri begins with "public/" and has no dot-prefixed path segment, and fails
with the disallowed-access error (`DisallowedFileError`) otherwise; in
particular "public/img/a.png" is allowed while "secret/x" and
"public/.hidden" are rejected with the disallowed-access error. -/
theorem open_local_resource_whitelist :
    (∀ uri : List Char,
      (open_local_resource uri = Except.ok uri ∧ specAllowedUri uri) ∨
      ((∃ msg, open_local_resource uri = Except.error msg) ∧
        ¬ specAllowedUri uri)) ∧
    open_local_resource "public/img/a.png".toList =
      Except.ok "public/img/a.png".toList ∧
    open_local_resource "secret/x".toList =
      Except.error "Only files from public/ are allowed" ∧
    open_local_resource "public/.hidden".toList =
      Except.error "Only safe file names are allowed" := by
  refine ⟨?_, rfl, rfl, rfl⟩
  intro uri
  by_cases hpre : "public/".toList.isPrefixOf uri = true
  · obtain ⟨rest, hrest⟩ : ∃ t, "public/".toList ++ t = uri := by
      simpa [ List.isPrefixOf_iff_prefix, List.IsPrefix] using hpre
    by_cases hdot : hasSlashDot uri = true
    · right
      constructor
      · refine ⟨"Only safe file names are allowed", ?_⟩
        unfold open_local_resource
        rw [if_neg (not_not_intro hpre), if_pos hdot]
      · rintro ⟨-, hall⟩
        rw [hasSlashDot_eq_any_tailSegs] at hdot
        rw [List.any_eq_true] at hdot
        obtain ⟨s, hs, hsdot⟩ := hdot
        have hmem : s ∈ segs uri := by
          subst hrest
          rw [tailSegs_public_append] at hs
          rw [segs_public_append]
          exact List.mem_cons_of_mem _ hs
        have := hall s hmem
        simp [this] at hsdot
    · left
      have hdot' : hasSlashDot uri = false := by
        simpa using hdot
      constructor
      · unfold open_local_resource
        rw [if_neg (not_not_intro hpre), if_neg (by simp [hdot'])]
      · refine ⟨hpre, ?_⟩
        intro s hs
        subst hrest
        rw [segs_public_append] at hs
        rcases List.mem_cons.mp hs with h | h
        · subst h
          decide
        · rw [hasSlashDot_eq_any_tailSegs, tailSegs_public_append] at hdot'
          by_contra hcon
          have : (segs rest).any dotSeg = true :=
            List.any_eq_true.mpr ⟨s, h, by simpa using hcon⟩
          rw [this] at hdot'
          cases hdot'
  · right
    constructor
    · refine ⟨"Only files from public/ are allowed", ?_⟩
      unfold open_local_resource
      rw [if_pos hpre]
    · rintro ⟨hp, -⟩
      exact hpre hp

/-! Class-tag theorems (C2, C3, C6, C9, C10) -/

theorem foldl_tags_mem (heap : TagHeap) (bases : List PyClass)
    (acc : Finset String) (t : String) :
    (t ∈ bases.foldl
      (fun acc base =>
        match base.tagsRef with
        | some r => acc ∪ heap.getD r ∅
        | none => acc)
      acc) ↔ t ∈ acc ∨ ∃ b ∈ bases, t ∈ getTags heap b := by
  induction bases generalizing acc with
  | nil => simp
  | cons b bs ih =>
    rw [List.foldl_cons, ih]
    have hstep :
        (match b.tagsRef with
         | some r => acc ∪ heap.getD r ∅
         | none => acc) = acc ∪ getTags heap b := by
      cases hb : b.tagsRef with
      | some r => simp [getTags, hb]
      | none => simp [getTags, hb]
    rw [hstep]
    simp only [Finset.mem_union, List.mem_cons]
    constructor
    · rintro (⟨h | h⟩ | ⟨b', hb', ht'⟩)
      · exact Or.inl h
      · exact Or.inr ⟨b, Or.inl rfl, h⟩
      · exact Or.inr ⟨b', Or.inr hb', ht'⟩
    · rintro (h | ⟨b', hb' | hb', ht'⟩)
      · exact Or.inl (Or.inl h)
      · subst hb'
        exact Or.inl (Or.inr ht')
      · exact Or.inr ⟨b', hb', ht'⟩

theorem getTags_metaclass_new (heap : TagHeap) (bases : List PyClass)
    (t : String) :
    t ∈ getTags (TagCombiningMetaclass_new heap bases).1
        (TagCombiningMetaclass_new heap bases).2 ↔
    ∃ b ∈ bases, t ∈ getTags heap b := by
  have hget : getTags (TagCombiningMetaclass_new heap bases).1
      (TagCombiningMetaclass_new heap bases).2 =
      bases.foldl
        (fun acc base =>
          match base.tagsRef with
          | some r => acc ∪ heap.getD r ∅
          | none => acc)
        ∅ := by
    show (heap ++ [_]).getD heap.length ∅ = _
    rw [List.getD_append_right _ _ _ _ (le_refl _)]
    simp
  rw [hget, foldl_tags_mem]
  simp

/-- C3. A class built by the tag-combining metaclass gets, at
class-construction time, the union of the class tag sets of all its base
classes (a base without a tag set contributes nothing); instance
construction never touches the class-tag heap. -/
theorem class_tags_union_at_class_creation :
    (∀ (heap : TagHeap) (bases : List PyClass) (t : String),
      t ∈ getTags (TagCombiningMetaclass_new heap bases).1
          (TagCombiningMetaclass_new heap bases).2 ↔
        ∃ b ∈ bases, t ∈ getTags heap b) ∧
    (∀ {R F S : Type} (heap : TagHeap) (runtime : R) (field_data : F)
        (scope_ids : PyArg S) (cls : PyClass),
      getTags (XBlock_init_heap heap runtime field_data scope_ids).1 cls =
        getTags heap cls) := by
  constructor
  · exact getTags_metaclass_new
  · intro R F S heap runtime field_data scope_ids cls
    rfl

/-- C2. `load_tagged_classes` yields exactly the (name, class) pairs of
the discovery collaborator whose class tag set contains the tag, in
discovery order (a sublist of the input), and a class derived through the
metaclass from a base tagged with the tag is included. -/
theorem load_tagged_classes_filters_by_tag :
    (∀ (heap : TagHeap) (t : String) (loaded : List (String × PyClass))
        (p : String × PyClass),
      p ∈ load_tagged_classes heap t loaded ↔
        p ∈ loaded ∧ t ∈ getTags heap p.2) ∧
    (∀ (heap : TagHeap) (t : String) (loaded : List (String × PyClass)),
      (load_tagged_classes heap t loaded).Sublist loaded) ∧
    (∀ (heap : TagHeap) (bases : List PyClass) (base : PyClass) (t : String)
        (nm : String) (loaded : List (String × PyClass)),
      base ∈ bases → t ∈ getTags heap base →
      (nm, (TagCombiningMetaclass_new heap bases).2) ∈ loaded →
      (nm, (TagCombiningMetaclass_new heap bases).2) ∈
        load_tagged_classes (TagCombiningMetaclass_new heap bases).1 t
          loaded) := by
  refine ⟨?_, ?_, ?_⟩
  · intro heap t loaded p
    simp [load_tagged_classes, List.mem_filter]
  · intro heap t loaded
    exact List.filter_sublist _
  · intro heap bases base t nm loaded hb ht hmem
    have hin : t ∈ getTags (TagCombiningMetaclass_new heap bases).1
        (TagCombiningMetaclass_new heap bases).2 :=
      (getTags_metaclass_new heap bases t).mpr ⟨base, hb, ht⟩
    simp [load_tagged_classes, List.mem_filter, hmem, hin]

theorem load_tagged_classes_filters_by_tag_witness :
    PyClass.mk (some 0) ∈ [PyClass.mk (some 0)] ∧
    "video" ∈ getTags [{"video"}] (PyClass.mk (some 0)) ∧
    ("derived",
        (TagCombiningMetaclass_new [{"video"}] [PyClass.mk (some 0)]).2) ∈
      [("other", PyClass.mk none), ("derived", PyClass.mk (some 1))] ∧
    ("derived",
        (TagCombiningMetaclass_new [{"video"}] [PyClass.mk (some 0)]).2) ∈
      load_tagged_classes
        (TagCombiningMetaclass_new [{"video"}] [PyClass.mk (some 0)]).1
        "video"
        [("other", PyClass.mk none), ("derived", PyClass.mk (some 1))] :=
  ⟨by decide, by decide, by decide,
    load_tagged_classes_filters_by_tag.2.2 [{"video"}] [PyClass.mk (some 0)]
      (PyClass.mk (some 0)) "video" "derived"
      [("other", PyClass.mk none), ("derived", PyClass.mk (some 1))]
      (by decide) (by decide) (by decide)⟩

/-- C9. `XBlock.tag(s)` returns a decorator that adds to the class's tag
set exactly the whitespace-separated words of `s` after commas become
spaces, removes nothing, and returns the very class it was given; the words
of "video, audio" are "video" and "audio". -/
theorem tag_decorator_adds_exactly_words :
    (∀ (heap : TagHeap) (cls : PyClass) (r : Nat) (s : String),
      cls.tagsRef = some r → r < heap.length →
      ∃ h' : TagHeap,
        XBlock_tag s heap cls = Except.ok (h', cls) ∧
        getTags h' cls = getTags heap cls ∪ (pywords s).toFinset ∧
        getTags heap cls ⊆ getTags h' cls) ∧
    pywords "video, audio" = ["video", "audio"] := by
  constructor
  · intro heap cls r s href hr
    have hset : getTags
        (heap.set r (heap.getD r ∅ ∪ (pywords s).toFinset)) cls =
        heap.getD r ∅ ∪ (pywords s).toFinset := by
      simp [getTags, href, List.getD, List.getElem?_set_self, hr]
    have hold : getTags heap cls = heap.getD r ∅ := by
      simp [getTags, href]
    refine ⟨heap.set r (heap.getD r ∅ ∪ (pywords s).toFinset), ?_, ?_, ?_⟩
    · simp [XBlock_tag, href]
    · rw [hset, hold]
    · rw [hset, hold]
      intro x hx
      exact Finset.mem_union_left _ hx
  · decide

theorem tag_decorator_adds_exactly_words_witness :
    (PyClass.mk (some 0)).tagsRef = some 0 ∧
    0 < ([∅] : TagHeap).length ∧
    ∃ h' : TagHeap,
      XBlock_tag "video" [∅] (PyClass.mk (some 0)) =
        Except.ok (h', PyClass.mk (some 0)) ∧
      getTags h' (PyClass.mk (some 0)) =
        getTags [∅] (PyClass.mk (some 0)) ∪ (pywords "video").toFinset ∧
      getTags [∅] (PyClass.mk (some 0)) ⊆ getTags h' (PyClass.mk (some 0)) :=
  ⟨rfl, by decide,
    tag_decorator_adds_exactly_words.1 [∅] (PyClass.mk (some 0)) 0 "video"
      rfl (by decide)⟩

/-- C6 (counterexample). The claim "no operation performed after a class
has been constructed (including applying the `XBlock.tag` decorator to an
existing class) changes that class's tag set" is false: applying the
decorator for "video" to a class whose tag set is empty changes that class's
tag set. -/
theorem class_tags_immutable_counterexample :
    XBlock_tag "video" [(∅ : Finset String)] (PyClass.mk (some 0)) =
      Except.ok ([insert "video" ∅], PyClass.mk (some 0)) ∧
    getTags [insert "video" (∅ : Finset String)] (PyClass.mk (some 0)) ≠
      getTags [(∅ : Finset String)] (PyClass.mk (some 0)) := by
  constructor
  · decide
  · decide

/-- C6 (amended). A class's tag set is not immutable after class
creation: applying the `XBlock.tag` decorator to an existing class mutates
the class's tag set in place, extending it with the decorator's words; it
never removes a tag. -/
theorem tag_decorator_mutates_class_tags_in_place (heap : TagHeap)
    (cls : PyClass) (r : Nat) (s : String) (h' : TagHeap) (c' : PyClass)
    (href : cls.tagsRef = some r) (hr : r < heap.length)
    (hok : XBlock_tag s heap cls = Except.ok (h', c')) :
    getTags h' cls = getTags heap cls ∪ (pywords s).toFinset ∧
    getTags heap cls ⊆ getTags h' cls := by
  have hh' : h' = heap.set r (heap[r]?.getD ∅ ∪ (pywords s).toFinset) := by
    simp [XBlock_tag, href] at hok
    exact hok.1.symm
  subst hh'
  have hset : getTags
      (heap.set r (heap[r]?.getD ∅ ∪ (pywords s).toFinset)) cls =
      heap[r]?.getD ∅ ∪ (pywords s).toFinset := by
    simp [getTags, href, List.getD, List.getElem?_set_self, hr]
  have hold : getTags heap cls = heap[r]?.getD ∅ := by
    simp [getTags, href, List.getD]
  constructor
  · rw [hset, hold]
  · rw [hset, hold]
    intro x hx
    exact Finset.mem_union_left _ hx

theorem tag_decorator_mutates_class_tags_in_place_witness :
    (PyClass.mk (some 0)).tagsRef = some 0 ∧
    0 < ([{"old"}] : TagHeap).length ∧
    XBlock_tag "a, b" [{"old"}] (PyClass.mk (some 0)) =
      Except.ok ([insert "a" (insert "b" (insert "old" ∅))],
        PyClass.mk (some 0)) ∧
    (getTags [insert "a" (insert "b" (insert "old" (∅ : Finset String)))]
        (PyClass.mk (some 0)) =
      getTags [({"old"} : Finset String)] (PyClass.mk (some 0)) ∪
        (pywords "a, b").toFinset ∧
    getTags [({"old"} : Finset String)] (PyClass.mk (some 0)) ⊆
      getTags [insert "a" (insert "b" (insert "old" (∅ : Finset String)))]
        (PyClass.mk (some 0))) :=
  ⟨rfl, by decide, by decide,
    tag_decorator_mutates_class_tags_in_place [{"old"}] (PyClass.mk (some 0))
      0 "a, b" [insert "a" (insert "b" (insert "old" ∅))]
      (PyClass.mk (some 0)) rfl (by decide) (by decide)⟩

/-- C10. The metaclass gives every new class a freshly allocated tag
set: the new class's set reference differs from every base's, tagging the
new class afterwards leaves every base's tag set unchanged, and a base
without a tag set is skipped silently (class creation yields the same result
with or without it). -/
theorem metaclass_fresh_tag_set_no_aliasing (heap : TagHeap)
    (bases : List PyClass) (hvalid : ∀ b ∈ bases, validRef heap b = true) :
    (∀ b ∈ bases, (TagCombiningMetaclass_new heap bases).2.tagsRef ≠
      b.tagsRef) ∧
    (∀ (s : String) (h'' : TagHeap) (c'' : PyClass),
      XBlock_tag s (TagCombiningMetaclass_new heap bases).1
          (TagCombiningMetaclass_new heap bases).2 = Except.ok (h'', c'') →
      ∀ b ∈ bases, getTags h'' b = getTags heap b) ∧
    (∀ b₀ : PyClass, b₀.tagsRef = none →
      TagCombiningMetaclass_new heap (b₀ :: bases) =
        TagCombiningMetaclass_new heap bases) := by
  refine ⟨?_, ?_, ?_⟩
  · intro b hb
    cases hbr : b.tagsRef with
    | none => simp [TagCombiningMetaclass_new]
    | some r =>
      have hr : r < heap.length := by
        have hv := hvalid b hb
        simp [validRef, hbr] at hv
        exact hv
      simp only [TagCombiningMetaclass_new, ne_eq, Option.some.injEq]
      exact fun he => absurd (he ▸ hr) (lt_irrefl _)
  · intro s h'' c'' hok b hb
    simp [TagCombiningMetaclass_new, XBlock_tag] at hok
    obtain ⟨h1, -⟩ := hok
    subst h1
    cases hbr : b.tagsRef with
    | none => simp [getTags, hbr]
    | some r =>
      have hr : r < heap.length := by
        have hv := hvalid b hb
        simp [validRef, hbr] at hv
        exact hv
      simp only [getTags, hbr]
      exact List.getD_append _ _ _ _ hr
  · intro b₀ h0
    simp [TagCombiningMetaclass_new, h0]

theorem metaclass_fresh_tag_set_no_aliasing_witness :
    (∀ b ∈ [PyClass.mk (some 0), PyClass.mk none],
      validRef [{"video"}] b = true) ∧
    (∀ b ∈ [PyClass.mk (some 0), PyClass.mk none],
      (TagCombiningMetaclass_new [{"video"}]
        [PyClass.mk (some 0), PyClass.mk none]).2.tagsRef ≠ b.tagsRef) ∧
    (∀ (s : String) (h'' : TagHeap) (c'' : PyClass),
      XBlock_tag s
          (TagCombiningMetaclass_new [{"video"}]
            [PyClass.mk (some 0), PyClass.mk none]).1
          (TagCombiningMetaclass_new [{"video"}]
            [PyClass.mk (some 0), PyClass.mk none]).2 =
        Except.ok (h'', c'') →
      ∀ b ∈ [PyClass.mk (some 0), PyClass.mk none],
        getTags h'' b = getTags [{"video"}] b) ∧
    (∀ b₀ : PyClass, b₀.tagsRef = none →
      TagCombiningMetaclass_new [{"video"}]
          (b₀ :: [PyClass.mk (some 0), PyClass.mk none]) =
        TagCombiningMetaclass_new [{"video"}]
          [PyClass.mk (some 0), PyClass.mk none]) :=
  ⟨by decide,
    (metaclass_fresh_tag_set_no_aliasing [{"video"}]
      [PyClass.mk (some 0), PyClass.mk none] (by decide)).1,
    (metaclass_fresh_tag_set_no_aliasing [{"video"}]
      [PyClass.mk (some 0), PyClass.mk none] (by decide)).2.1,
    (metaclass_fresh_tag_set_no_aliasing [{"video"}]
      [PyClass.mk (some 0), PyClass.mk none] (by decide)).2.2⟩

/-! C8: XBlock.__init__ -/

/-- C8. Constructing an `XBlock` without an explicit `scope_ids` raises
`TypeError('scope_ids are required')`; with `scope_ids` explicitly supplied
(any value of any type, so in particular a `none`), construction delegates
`runtime`, `scope_ids` and `field_data` unchanged to the mixin chain. -/
theorem xblock_init_requires_scope_ids :
    ∀ {R F S : Type} (runtime : R) (field_data : F),
      XBlock_init runtime field_data (PyArg.unset : PyArg S) =
        Except.error (PyErr.typeError "scope_ids are required") ∧
      ∀ s : S, XBlock_init runtime field_data (PyArg.given s) =
        Except.ok
          { runtime := runtime, scope_ids := s, field_data := field_data } := by
  intro R F S runtime field_data
  exact ⟨rfl, fun s => rfl⟩

/-! C7: deprecated exception aliases -/

/-- C7. The deprecated alias classes of `core.py` construct objects with
exactly the state the current exception classes would store for the same
arguments, additionally emit one deprecation warning, and are subclasses of
the current kinds, so each alias instance is an instance of the current
error kind. -/
theorem deprecated_exception_alias_passthrough :
    ∀ (args : List String) (kwargs : List (String × String)),
      ((core_KeyValueMultiSaveError_init args kwargs).1.args =
          (exceptions_KeyValueMultiSaveError_init args kwargs).1.args ∧
        (core_KeyValueMultiSaveError_init args kwargs).1.kwargs =
          (exceptions_KeyValueMultiSaveError_init args kwargs).1.kwargs ∧
        (core_KeyValueMultiSaveError_init args kwargs).2 =
          ["DeprecationWarning: Please use xblock.exceptions.KeyValueMultiSaveError"] ∧
        isSubclassOf (core_KeyValueMultiSaveError_init args kwargs).1.cls
          ExcClass.kvMultiSave = true) ∧
      ((core_XBlockSaveError_init args kwargs).1.args =
          (exceptions_XBlockSaveError_init args kwargs).1.args ∧
        (core_XBlockSaveError_init args kwargs).1.kwargs =
          (exceptions_XBlockSaveError_init args kwargs).1.kwargs ∧
        (core_XBlockSaveError_init args kwargs).2 =
          ["DeprecationWarning: Please use xblock.exceptions.XBlockSaveError"] ∧
        isSubclassOf (core_XBlockSaveError_init args kwargs).1.cls
          ExcClass.xbSave = true) := by
  intro args kwargs
  exact ⟨⟨rfl, rfl, rfl, rfl⟩, ⟨rfl, rfl, rfl, rfl⟩⟩

/-! C4: batched save with partial failure -/

theorem filter_single_true (l : List String) (k : String) (p : String → Bool)
    (hnd : l.Nodup) (hk : k ∈ l) (hpk : p k = true)
    (hothers : ∀ f ∈ l, f ≠ k → p f = false) :
    l.filter p = [k] := by
  induction l with
  | nil => cases hk
  | cons a l ih =>
    rcases List.mem_cons.mp hk with h | h
    · subst h
      have hrest : l.filter p = [] := by
        rw [List.filter_eq_nil_iff]
        intro f hf
        have hne : f ≠ k := fun he => (List.nodup_cons.mp hnd).1 (he ▸ hf)
        simp [hothers f (List.mem_cons_of_mem _ hf) hne]
      simp [List.filter_cons, hpk, hrest]
    · have ha : a ≠ k := fun he => (List.nodup_cons.mp hnd).1 (he ▸ h)
      have hpa : p a = false := hothers a (List.mem_cons_self a l) ha
      rw [List.filter_cons_of_neg (by simp [hpa])]
      exact ih (List.nodup_cons.mp hnd).2 h
        (fun f hf hne => hothers f (List.mem_cons_of_mem _ hf) hne)

/-- C4. When a batched save of distinct dirty fields hits a write
failure on exactly the field `k`: the reported failure map contains exactly
`k`, every other field is no longer dirty, `k` remains dirty, and the
partial-save error names exactly `k`. -/
theorem save_partial_failure_reporting (dirtyFields : List String)
    (k : String) (fails : String → Bool) (hnd : dirtyFields.Nodup)
    (hk : k ∈ dirtyFields) (hkf : fails k = true)
    (hothers : ∀ f ∈ dirtyFields, f ≠ k → fails f = false) :
    (save_block dirtyFields fails).failed = [k] ∧
    k ∈ (save_block dirtyFields fails).dirty ∧
    (∀ f ∈ dirtyFields, f ≠ k → f ∉ (save_block dirtyFields fails).dirty) ∧
    (save_block dirtyFields fails).err = some [k] := by
  have hfail : kvs_set_many dirtyFields fails = [k] :=
    filter_single_true dirtyFields k fails hnd hk hkf hothers
  refine ⟨hfail, ?_, ?_, ?_⟩
  · show k ∈ dirtyFields.filter
      (fun f => (kvs_set_many dirtyFields fails).contains f)
    rw [List.mem_filter]
    refine ⟨hk, ?_⟩
    rw [hfail]
    simp
  · intro f hf hne
    show f ∉ dirtyFields.filter
      (fun f => (kvs_set_many dirtyFields fails).contains f)
    rw [List.mem_filter]
    rintro ⟨-, hcont⟩
    rw [hfail] at hcont
    simp at hcont
    exact hne hcont
  · show (if (kvs_set_many dirtyFields fails).isEmpty then none
      else some (kvs_set_many dirtyFields fails)) = some [k]
    rw [hfail]
    rfl

theorem save_partial_failure_reporting_witness :
    (["a", "b", "c"] : List String).Nodup ∧
    "b" ∈ (["a", "b", "c"] : List String) ∧
    (fun f => f == "b") "b" = true ∧
    (∀ f ∈ (["a", "b", "c"] : List String), f ≠ "b" →
      (fun f => f == "b") f = false) ∧
    ((save_block ["a", "b", "c"] (fun f => f == "b")).failed = ["b"] ∧
      "b" ∈ (save_block ["a", "b", "c"] (fun f => f == "b")).dirty ∧
      (∀ f ∈ (["a", "b", "c"] : List String), f ≠ "b" →
        f ∉ (save_block ["a", "b", "c"] (fun f => f == "b")).dirty) ∧
      (save_block ["a", "b", "c"] (fun f => f == "b")).err = some ["b"]) :=
  ⟨by decide, by decide, by decide, by decide,
    save_partial_failure_reporting ["a", "b", "c"] "b" (fun f => f == "b")
      (by decide) (by decide) (by decide) (by decide)⟩

/-! C5: XML round-trip -/

theorem lookupAttr_mem (attrs : List (String × String)) (k v : String)
    (h : lookupAttr attrs k = some v) : (k, v) ∈ attrs := by
  induction attrs with
  | nil => cases h
  | cons a rest ih =>
    obtain ⟨k1, v1⟩ := a
    by_cases hk : k1 = k
    · subst hk
      have h' : v1 = v := by simpa [lookupAttr] using h
      subst h'
      exact List.mem_cons_self _ _
    · simp only [lookupAttr, if_neg hk] at h
      exact List.mem_cons_of_mem _ (ih h)

theorem filter_key_of_lookupAttr (attrs : List (String × String)) (k : String)
    (hnd : (attrs.map Prod.fst).Nodup) :
    attrs.filter (fun p => p.1 == k) =
      (match lookupAttr attrs k with
       | some v => [(k, v)]
       | none => []) := by
  induction attrs with
  | nil => rfl
  | cons a rest ih =>
    obtain ⟨k1, v1⟩ := a
    rw [List.map_cons, List.nodup_cons] at hnd
    by_cases hk : k1 = k
    · subst hk
      have hrest : rest.filter (fun p => p.1 == k1) = [] := by
        rw [List.filter_eq_nil_iff]
        intro p hp
        have hm : p.1 ∈ rest.map Prod.fst := List.mem_map_of_mem Prod.fst hp
        have hne : p.1 ≠ k1 := fun he => hnd.1 (he ▸ hm)
        simp [hne]
      simp [lookupAttr, List.filter_cons, hrest]
    · have hne : (k1 == k) = false := by simp [hk]
      simp only [lookupAttr, if_neg hk, List.filter_cons, hne, if_neg]
      rw [if_neg (by simp [hk])]
      exact ih hnd.2

theorem name_attr_filter (attrs : List (String × String))
    (hnd : (attrs.map Prod.fst).Nodup)
    (hname : ∀ p ∈ attrs, p.1 = "name" → p.2 ≠ "") :
    (if (lookupAttr attrs "name").getD "" = "" then []
     else [("name", (lookupAttr attrs "name").getD "")]) =
      attrs.filter (fun p => p.1 == "name") := by
  rw [filter_key_of_lookupAttr attrs "name" hnd]
  cases hl : lookupAttr attrs "name" with
  | none => simp
  | some v =>
    have hv : v ≠ "" := hname ("name", v) (lookupAttr_mem attrs "name" v hl) rfl
    simp [hv]

theorem tags_attr_filter (attrs : List (String × String))
    (hnd : (attrs.map Prod.fst).Nodup)
    (htags : ∀ p ∈ attrs, p.1 = "tags" →
      decodeTags p.2 ≠ [] ∧ encodeTags (decodeTags p.2) = p.2) :
    (if ((lookupAttr attrs "tags").map decodeTags).getD [] = [] then []
     else [("tags",
       encodeTags (((lookupAttr attrs "tags").map decodeTags).getD []))]) =
      attrs.filter (fun p => p.1 == "tags") := by
  rw [filter_key_of_lookupAttr attrs "tags" hnd]
  cases hl : lookupAttr attrs "tags" with
  | none => simp
  | some v =>
    have hv := htags ("tags", v) (lookupAttr_mem attrs "tags" v hl) rfl
    simp [hv.1, hv.2]

theorem attrs_perm_decomp (attrs : List (String × String)) :
    List.Perm
      (attrs.filter (fun p => p.1 == "name") ++
        (attrs.filter (fun p => p.1 == "tags") ++
          attrs.filter (fun p => !(p.1 == "name") && !(p.1 == "tags"))))
      attrs := by
  have h1 := List.filter_append_perm (fun p => p.1 == "name") attrs
  have h2 := List.filter_append_perm (fun p => p.1 == "tags")
    (attrs.filter (fun p => !(p.1 == "name")))
  have e1 : (attrs.filter (fun p => !(p.1 == "name"))).filter
      (fun p => p.1 == "tags") = attrs.filter (fun p => p.1 == "tags") := by
    rw [List.filter_filter]
    apply List.filter_congr
    intro p hp
    by_cases ht : p.1 = "tags"
    · simp [ht]
    · simp [ht]
  have e2 : (attrs.filter (fun p => !(p.1 == "name"))).filter
      (fun p => !(p.1 == "tags")) =
      attrs.filter (fun p => !(p.1 == "name") && !(p.1 == "tags")) := by
    rw [List.filter_filter]
    apply List.filter_congr
    intro p hp
    exact Bool.and_comm _ _
  rw [e1, e2] at h2
  exact (h2.append_left _).trans h1

mutual

theorem xml_roundtrip_node : ∀ (x : XmlNode), wellFormedXml x = true →
    semEquiv (add_xml_to_node (parse_xml x)) x
  | XmlNode.node t attrs children, h => by
    simp only [wellFormedXml, Bool.and_eq_true, List.all_eq_true,
      decide_eq_true_eq] at h
    obtain ⟨⟨hnd, hattrs⟩, hkids⟩ := h
    have hname : ∀ p ∈ attrs, p.1 = "name" → p.2 ≠ "" := by
      intro p hp he
      have hb := hattrs p hp
      rw [if_pos he] at hb
      simpa using hb
    have htags : ∀ p ∈ attrs, p.1 = "tags" →
        decodeTags p.2 ≠ [] ∧ encodeTags (decodeTags p.2) = p.2 := by
      intro p hp he
      have hb := hattrs p hp
      have hne : p.1 ≠ "name" := by rw [he]; decide
      rw [if_neg hne, if_pos he] at hb
      simpa using hb
    simp only [parse_xml, add_xml_to_node]
    apply semEquiv.mk
    · rw [List.append_assoc, name_attr_filter attrs hnd hname,
        tags_attr_filter attrs hnd htags]
      exact attrs_perm_decomp attrs
    · exact xml_roundtrip_forest children hkids

theorem xml_roundtrip_forest : ∀ (xs : List XmlNode),
    wellFormedForest xs = true →
    List.Forall₂ semEquiv (serializeChildren (parseChildren xs)) xs
  | [], _ => List.Forall₂.nil
  | x :: xs, h => by
    simp only [wellFormedForest, Bool.and_eq_true] at h
    exact List.Forall₂.cons (xml_roundtrip_node x h.1)
      (xml_roundtrip_forest xs h.2)

end

/-- C5. Serializing the block obtained by deserializing a well-formed
markup tree yields a tree semantically equivalent to the original: same tag,
same attribute bindings up to order, children equivalent in the same order;
and a block with name "Intro" and tags ["a", "b"] survives a
serialize-then-deserialize round trip with both field values intact. -/
theorem xml_roundtrip_semantic_equivalence :
    (∀ x : XmlNode, wellFormedXml x = true →
      semEquiv (add_xml_to_node (parse_xml x)) x) ∧
    (parse_xml (add_xml_to_node
      (ParsedBlock.mk "xblock" "Intro" ["a", "b"] [] []))).name = "Intro" ∧
    (parse_xml (add_xml_to_node
      (ParsedBlock.mk "xblock" "Intro" ["a", "b"] [] []))).tags = ["a", "b"] :=
  ⟨xml_roundtrip_node, by decide, by decide⟩

theorem xml_roundtrip_semantic_equivalence_witness :
    wellFormedXml (XmlNode.node "xblock"
      [("tags", "a,b"), ("name", "Intro"), ("data-x", "1")]
      [XmlNode.node "child" [] []]) = true ∧
    semEquiv
      (add_xml_to_node (parse_xml (XmlNode.node "xblock"
        [("tags", "a,b"), ("name", "Intro"), ("data-x", "1")]
        [XmlNode.node "child" [] []])))
      (XmlNode.node "xblock"
        [("tags", "a,b"), ("name", "Intro"), ("data-x", "1")]
        [XmlNode.node "child" [] []]) :=
  ⟨by decide,
    xml_roundtrip_semantic_equivalence.1
      (XmlNode.node "xblock"
        [("tags", "a,b"), ("name", "Intro"), ("data-x", "1")]
        [XmlNode.node "child" [] []]) (by decide)⟩

end XBlockCore
